import Mathlib

/-!
Verification of the RSSI retrieval-augmented assistant (`src/rssi.py`).

The development shallow-embeds the algorithmic core of `rssi.py`:
the PDF chunker `lire_et_chunker_pdfs`, the vector index
(`construire_index` / `rechercher_passages`), the CERT-FR advisory
selection `get_alertes_certfr`, the persistent conversation log
(`sauvegarder_echange` / `charger_historique_persistant`) and the
answer extraction on line 168.

Texts are `List Char`; Python `int` is `Int`; fallible Python code
(exceptions) is `Except String`.  Python primitives used by the source
(`range`, slicing, `str.strip`) are embedded faithfully below.
-/

namespace RSSI

/-- Python `range(start, stop, step)`.  A zero step raises `ValueError`;
otherwise the elements are `start, start+step, ...` strictly before
(resp. after, for negative step) `stop`.  The element count matches
CPython: `max 0 (ceil ((stop-start)/step))`. -/
def pyRange (start stop step : Int) : Except String (List Int) :=
  if step = 0 then .error "range() arg 3 must not be zero"
  else
    let n : Nat :=
      if 0 < step then (((stop - start) + step - 1) / step).toNat
      else (((start - stop) + (-step) - 1) / (-step)).toNat
    .ok ((List.range n).map (fun (k : Nat) => start + (k : Int) * step))

/-- Clamp a Python slice bound to `[0, len]`: negative indices count from
the end (floored at 0), positive ones are capped at `len`. -/
def pyClampBound (len : Nat) (i : Int) : Nat :=
  if i < 0 then ((len : Int) + i).toNat else min i.toNat len

/-- Python slice `s[lo:hi]` (step 1). -/
def pySlice (s : List Char) (lo hi : Int) : List Char :=
  let lo' := pyClampBound s.length lo
  let hi' := pyClampBound s.length hi
  (s.drop lo').take (hi' - lo')

/-- Python's whitespace class: the characters `str.strip()` with no
argument removes are exactly those for which `str.isspace()` holds:
the ASCII controls 0x09-0x0d (tab, LF, VT, FF, CR), the separators
0x1c-0x1f, the space 0x20, NEL 0x85, NBSP 0xa0, the Ogham space 0x1680,
the Unicode spaces 0x2000-0x200a, the line and paragraph separators
0x2028 and 0x2029, the narrow NBSP 0x202f, the medium mathematical
space 0x205f and the ideographic space 0x3000. -/
def pyEstEspace (c : Char) : Bool :=
  decide ((9 ≤ c.toNat ∧ c.toNat ≤ 13) ∨ (28 ≤ c.toNat ∧ c.toNat ≤ 31) ∨
    c.toNat = 32 ∨ c.toNat = 133 ∨ c.toNat = 160 ∨ c.toNat = 5760 ∨
    (8192 ≤ c.toNat ∧ c.toNat ≤ 8202) ∨ c.toNat = 8232 ∨ c.toNat = 8233 ∨
    c.toNat = 8239 ∨ c.toNat = 8287 ∨ c.toNat = 12288)

/-- Python `str.strip()`: remove leading and trailing whitespace. -/
def pyStrip (s : List Char) : List Char :=
  ((s.dropWhile pyEstEspace).reverse.dropWhile pyEstEspace).reverse

/-- The chunking loop of `lire_et_chunker_pdfs` (rssi.py lines 45-49) run
on one extracted text: for `i in range(0, len(texte), taille - chevauchement)`
slice `texte[i : i + taille]` and keep it unless it strips to empty.
A zero `range` step propagates as the `ValueError` it raises in Python. -/
def decouper (texte : List Char) (taille chevauchement : Int) :
    Except String (List (List Char)) :=
  match pyRange 0 texte.length (taille - chevauchement) with
  | .error e => .error e
  | .ok starts =>
      .ok (starts.filterMap (fun i =>
        let chunk := pySlice texte i (i + taille)
        if (pyStrip chunk).length > 0 then some chunk else none))

/-- A file of the corpus directory: its name and the result of PDF text
extraction (`fitz.open` + page concatenation); `.error` models any
exception raised while reading the document. -/
structure Document where
  nom : String
  contenu : Except String (List Char)

/-- `fichier.lower().endswith(".pdf")` (rssi.py line 35). -/
def estPdf (nom : String) : Bool :=
  nom.toLower.endsWith ".pdf"

/-- `lire_et_chunker_pdfs` (rssi.py lines 30-54): scan the directory in
listing order, keep `.pdf` files, extract and chunk each one, and append
chunks and their source filename in step; any exception while processing
one document (extraction failure, or the `ValueError` of a zero chunking
step) is caught by the per-file `try`, a warning is shown, and the
document contributes nothing. -/
def lire_et_chunker_pdfs (dossier : List Document)
    (taille chevauchement : Int) : List (List Char) × List String :=
  match dossier with
  | [] => ([], [])
  | doc :: reste =>
      let suite := lire_et_chunker_pdfs reste taille chevauchement
      if estPdf doc.nom then
        match doc.contenu with
        | .ok texte =>
            match decouper texte taille chevauchement with
            | .ok dcs => (dcs ++ suite.1, dcs.map (fun _ => doc.nom) ++ suite.2)
            | .error _ => suite
        | .error _ => suite
      else suite

/-- Squared Euclidean (L2) distance between two vectors. -/
def distL2 (u v : List Int) : Int :=
  (List.zipWith (fun a b => (a - b) ^ 2) u v).sum

/-- Modelled from the spec: the FAISS `IndexFlatL2` object built by
`construire_index` (rssi.py lines 57-61).  FAISS is an external library
(spec §4.4): the index stores copies of all embedded vectors. -/
structure IndexFlatL2 where
  vecteurs : List (List Int)

/-- `construire_index` (rssi.py lines 57-61): embed every chunk and add
all vectors to a fresh L2 index; the embedding model is an external
collaborator (spec §4.3: a deterministic, length- and order-preserving
map), passed here as the function `modele`.  Returns the index and the
vector matrix, as the source does. -/
def construire_index (modele : List Char → List Int)
    (chunks : List (List Char)) : IndexFlatL2 × List (List Int) :=
  (⟨chunks.map modele⟩, chunks.map modele)

/-- Modelled from the spec: `index.search` of FAISS (spec §4.4): return
the positions of the `k` nearest stored vectors by squared L2 distance,
ascending, ties broken by insertion order (first-inserted wins), with
`k` clamped to the index size; an empty index yields an empty result.
The stable insertion sort realizes exactly this ranking. -/
def indexSearch (idx : IndexFlatL2) (q : List Int) (k : Nat) : List Nat :=
  ((List.insertionSort (fun a b => distL2 q a.2 ≤ distL2 q b.2)
      idx.vecteurs.enum).map Prod.fst).take k

/-- `rechercher_passages` (rssi.py lines 64-68): embed the question,
search the index for the `top_k` nearest chunk positions, and map each
returned position back to its chunk (`chunks[i]`). -/
def rechercher_passages (modele : List Char → List Int) (question : List Char)
    (chunks : List (List Char)) (idx : IndexFlatL2) (top_k : Nat) :
    List (List Char) :=
  (indexSearch idx (modele question) top_k).map (fun i => chunks.getD i [])

/-- A parsed feed entry as `feedparser` hands it to `get_alertes_certfr`;
`published_parsed` is the parsed publication time, totally ordered, kept
abstract as an integer timestamp. -/
structure Entry where
  title : String
  published : String
  published_parsed : Int
  summary : String
  link : String
deriving DecidableEq

/-- The advisory record built by `get_alertes_certfr` (rssi.py 86-91). -/
structure Alerte where
  titre : String
  date : String
  description : String
  lien : String
deriving DecidableEq

/-- The dictionary `get_alertes_certfr` builds from one entry. -/
def versAlerte (e : Entry) : Alerte :=
  ⟨e.title, e.published, e.summary, e.link⟩

/-- `sorted(feed.entries, key=..., reverse=True)` (rssi.py lines 78-82):
CPython's sort is stable and `reverse=True` reverses the comparison,
not the list, so the result is the unique stable descending reordering
by `published_parsed`; a stable insertion sort computes exactly that. -/
def triParDateDesc (entries : List Entry) : List Entry :=
  List.insertionSort (fun a b => b.published_parsed ≤ a.published_parsed) entries

/-- `get_alertes_certfr` (rssi.py lines 71-94), as a function of the
parsed feed entries (the HTTP fetch and `feedparser.parse` are external):
sort descending by parsed publication date, keep the first 5, and build
the advisory dictionaries. -/
def get_alertes_certfr (entries : List Entry) : List Alerte :=
  ((triParDateDesc entries).take 5).map versAlerte

/-- Lowercase hex digit, as `json.dumps` emits in `\uXXXX` escapes. -/
def hexChiffre (n : Nat) : Char :=
  if n < 10 then Char.ofNat (48 + n) else Char.ofNat (87 + n)

/-- How `json.dumps(..., ensure_ascii=False)` renders one character of a
JSON string: `"` and `\` are backslash-escaped, the five named control
characters use their short escapes, other control characters become
`\u00XX`, and everything else is emitted verbatim. -/
def jsonEscapeChar (c : Char) : List Char :=
  if c = '"' then ['\\', '"']
  else if c = '\\' then ['\\', '\\']
  else if c = '\x08' then ['\\', 'b']
  else if c = '\t' then ['\\', 't']
  else if c = '\n' then ['\\', 'n']
  else if c = '\x0c' then ['\\', 'f']
  else if c = '\r' then ['\\', 'r']
  else if c.toNat < 32 then
    ['\\', 'u', '0', '0', hexChiffre (c.toNat / 16), hexChiffre (c.toNat % 16)]
  else [c]

/-- `json.dumps` escaping of a whole string body. -/
def jsonEscape (s : List Char) : List Char :=
  (s.map jsonEscapeChar).flatten

/-- Literal opening fragment of the serialized exchange record
`\x7b"timestamp": "..", "question": "..", "reponse": ".."\x7d`
(`json.dumps` with default separators on the dict of rssi.py 97-101),
up to and including the quote that opens the timestamp value. -/
def litEntete : List Char := "\x7b\"timestamp\": \"".toList

/-- Fragment between the timestamp value's closing quote and the quote
opening the question value. -/
def litQ : List Char := ", \"question\": \"".toList

/-- Fragment between the question value's closing quote and the quote
opening the reponse value. -/
def litR : List Char := ", \"reponse\": \"".toList

/-- The single line `sauvegarder_echange` writes (rssi.py lines 96-104):
`json.dumps` of the three-field dict, field order preserved.  The
trailing `"\n"` is the line terminator and is represented by this being
one element of the line list. -/
def dumpsEchange (ts question reponse : List Char) : List Char :=
  litEntete ++ (jsonEscape ts ++ '"' :: (litQ ++ (jsonEscape question ++
    '"' :: (litR ++ (jsonEscape reponse ++ '"' :: ['\x7d'])))))

/-- `sauvegarder_echange` (rssi.py lines 96-104): append one serialized
exchange line to the log file, modelled as the list of its lines. -/
def sauvegarder_echange (ts question reponse : List Char)
    (fichier : List (List Char)) : List (List Char) :=
  fichier ++ [dumpsEchange ts question reponse]

/-- Value of one JSON short escape character, or an error. -/
def escSimple (e : Char) : Except String Char :=
  if e = '"' then .ok '"'
  else if e = '\\' then .ok '\\'
  else if e = '/' then .ok '/'
  else if e = 'b' then .ok '\x08'
  else if e = 'f' then .ok '\x0c'
  else if e = 'n' then .ok '\n'
  else if e = 'r' then .ok '\r'
  else if e = 't' then .ok '\t'
  else .error "invalid escape"

/-- Value of a hex digit, as `json.loads` reads `\uXXXX`. -/
def hexVal (c : Char) : Except String Nat :=
  if '0' ≤ c ∧ c ≤ '9' then .ok (c.toNat - 48)
  else if 'a' ≤ c ∧ c ≤ 'f' then .ok (c.toNat - 87)
  else if 'A' ≤ c ∧ c ≤ 'F' then .ok (c.toNat - 55)
  else .error "invalid hex digit"

/-- `json.loads` reading of a JSON string body, positioned right after
the opening quote: consume up to the closing quote, decoding escapes and
rejecting raw control characters (the default `strict=True`); returns
the decoded body and the input remaining after the closing quote.  The
fuel argument only bounds the recursion; every step consumes at least
one input character, so fuel equal to the input length never runs out
(`parseJsonChaine` below always supplies it). -/
def parseJsonChaineF : Nat → List Char → Except String (List Char × List Char)
  | _, [] => .error "unterminated string"
  | 0, _ :: _ => .error "unterminated string"
  | fuel + 1, c :: reste =>
      if c = '"' then .ok ([], reste)
      else if c = '\\' then
        match reste with
        | [] => .error "truncated escape"
        | e :: reste2 =>
            if e = 'u' then
              match reste2 with
              | h1 :: h2 :: h3 :: h4 :: reste3 => do
                  let a ← hexVal h1
                  let b ← hexVal h2
                  let c2 ← hexVal h3
                  let d ← hexVal h4
                  let (s, r) ← parseJsonChaineF fuel reste3
                  .ok (Char.ofNat (((a * 16 + b) * 16 + c2) * 16 + d) :: s, r)
              | _ => .error "truncated unicode escape"
            else do
              let c2 ← escSimple e
              let (s, r) ← parseJsonChaineF fuel reste2
              .ok (c2 :: s, r)
      else if c.toNat < 32 then .error "control character in string"
      else do
        let (s, r) ← parseJsonChaineF fuel reste
        .ok (c :: s, r)

/-- The string-body reader with its always-sufficient fuel. -/
def parseJsonChaine (s : List Char) : Except String (List Char × List Char) :=
  parseJsonChaineF s.length s

/-- Consume an expected literal fragment, or fail. -/
def attendre : List Char → List Char → Except String (List Char)
  | [], s => .ok s
  | _ :: _, [] => .error "unexpected end of line"
  | c :: cs, d :: ds => if c = d then attendre cs ds else .error "mismatch"

/-- One iteration of the reload loop of `charger_historique_persistant`
(rssi.py lines 113-118): `json.loads` the line and read its
`"question"` and `"reponse"` fields.  A line is well-formed exactly when
it is a serialized exchange record (the only producer is
`sauvegarder_echange`); any parse failure models the exception swallowed
by the bare `except`. -/
def parseLigneEchange (ligne : List Char) : Except String (List Char × List Char) := do
  let r1 ← attendre litEntete ligne
  let (_, r2) ← parseJsonChaine r1
  let r3 ← attendre litQ r2
  let (q, r4) ← parseJsonChaine r3
  let r5 ← attendre litR r4
  let (rep, r6) ← parseJsonChaine r5
  let r7 ← attendre ['\x7d'] r6
  if r7 = [] then .ok (q, rep) else .error "trailing data"

/-- `charger_historique_persistant` (rssi.py lines 107-120): scan the
log file line by line, keep the `(question, reponse)` of every line that
parses, silently skip the rest.  A missing file is the empty line list. -/
def charger_historique_persistant (fichier : List (List Char)) :
    List (List Char × List Char) :=
  fichier.filterMap (fun ligne => (parseLigneEchange ligne).toOption)

/-- The placeholder answer of rssi.py line 168. -/
def reponseParDefaut : String := "❌ Pas de réponse générée."

/-- `answer = response.json().get("response", "❌ Pas de réponse générée.")`
(rssi.py line 168): the generation reply is a JSON object, modelled as
an association list of its string fields; `dict.get` substitutes the
default only when the key is absent. -/
def answer (reply : List (String × String)) : String :=
  match reply.lookup "response" with
  | some v => v
  | none => reponseParDefaut

theorem pySlice_nat (s : List Char) (i j : Nat) (hij : i ≤ j) :
    pySlice s i j = (s.drop i).take (j - i) := by
  unfold pySlice pyClampBound
  have hi : ¬ ((i : Int) < 0) := by omega
  have hj : ¬ ((j : Int) < 0) := by omega
  simp only [hi, hj, if_false, Int.toNat_natCast]
  rcases le_or_lt i s.length with hiL | hiL
  · rw [min_eq_left hiL]
    rcases le_or_lt j s.length with hjL | hjL
    · rw [min_eq_left hjL]
    · rw [min_eq_right hjL.le]
      have hlen : (s.drop i).length = s.length - i := List.length_drop i s
      rw [List.take_of_length_le (by omega), List.take_of_length_le (by omega)]
  · rw [min_eq_right hiL.le, min_eq_right (by omega : s.length ≤ j)]
    rw [List.drop_length, List.drop_eq_nil_of_le hiL.le]
    simp

theorem pyRange_pos (L s : Nat) (hs : 0 < s) :
    pyRange 0 L s = .ok ((List.range ((L + s - 1) / s)).map
      (fun (k : Nat) => ((k : Int) * (s : Int)))) := by
  have h0 : ¬ ((s : Int) = 0) := by omega
  have h1 : (0 : Int) < (s : Int) := by omega
  have hn : (((L : Int) - 0) + (s : Int) - 1) / (s : Int) = ((L + s - 1 : Nat) : Int) / (s : Int) := by
    congr 1
    omega
  unfold pyRange
  simp only [h0, if_false, h1, if_true, hn, ← Int.ofNat_ediv, Int.toNat_natCast]
  simp

/-- Pointwise-equal functions give equal `filterMap`s. -/
theorem filterMap_ext {α β : Type} (l : List α) (f g : α → Option β)
    (h : ∀ a ∈ l, f a = g a) : l.filterMap f = l.filterMap g := by
  induction l with
  | nil => rfl
  | cons a l ih =>
      rw [List.filterMap_cons, List.filterMap_cons, h a (List.mem_cons_self a l),
        ih (fun b hb => h b (List.mem_cons_of_mem a hb))]

theorem decouper_nat (texte : List Char) (t c : Nat) (hc : c < t) :
    decouper texte t c = .ok ((List.range ((texte.length + (t - c) - 1) / (t - c))).filterMap
      (fun k =>
        if (pyStrip ((texte.drop ((t - c) * k)).take t)).length > 0 then
          some ((texte.drop ((t - c) * k)).take t)
        else none)) := by
  have hstep : ((t : Int) - (c : Int)) = ((t - c : Nat) : Int) := by omega
  unfold decouper
  rw [hstep, pyRange_pos _ _ (by omega)]
  refine congrArg Except.ok ?_
  rw [List.filterMap_map]
  refine filterMap_ext _ _ _ (fun k _ => ?_)
  simp only [Function.comp_apply]
  have hcast : ((k : Int) * ((t - c : Nat) : Int)) = (((t - c) * k : Nat) : Int) := by
    push_cast
    ring
  have hcast2 : ((((t - c) * k : Nat) : Int) + (t : Int)) = (((t - c) * k + t : Nat) : Int) := by
    push_cast
    ring
  rw [hcast, hcast2, pySlice_nat _ _ _ (by omega)]
  have hsub : (t - c) * k + t - (t - c) * k = t := by omega
  rw [hsub]

/-- `filterMap` with an always-satisfied keep-condition is a `map`. -/
theorem filterMap_if_all {α β : Type} (l : List α) (p : α → Prop) [DecidablePred p]
    (g : α → β) (h : ∀ a ∈ l, p a) :
    l.filterMap (fun a => if p a then some (g a) else none) = l.map g := by
  induction l with
  | nil => rfl
  | cons a l ih =>
      rw [List.filterMap_cons, List.map_cons]
      rw [if_pos (h a (List.mem_cons_self a l))]
      rw [ih (fun b hb => h b (List.mem_cons_of_mem a hb))]

/-- `getD` of a mapped `range` evaluates the function. -/
theorem getD_range_map {β : Type} (n k : Nat) (g : Nat → β) (d : β) (hk : k < n) :
    ((List.range n).map g).getD k d = g k := by
  rw [List.getD_eq_getD_get?, List.get?_map, List.get?_range hk]
  rfl

/-- C2, counterexample: with chunk_size 500 and overlap 501 (overlap >
chunk_size), the chunking loop is not rejected: `range(0, 10, -1)` is
simply empty and `lire_et_chunker_pdfs`'s inner loop returns normally
with no chunks, raising nothing. -/
theorem C2_contre_exemple :
    decouper (List.replicate 10 'a') 500 501 = .ok [] := by rfl

/-- C2, amended: for overlap ≥ chunk_size no chunk is ever produced, but
the configuration is rejected (a `ValueError` from `range`) only when
overlap = chunk_size; when overlap > chunk_size the loop silently
produces no chunks. -/
theorem C2_pas_de_chunk (texte : List Char) (taille chevauchement : Int)
    (h : taille ≤ chevauchement) :
    (taille = chevauchement ∧
      decouper texte taille chevauchement = .error "range() arg 3 must not be zero") ∨
    (taille < chevauchement ∧ decouper texte taille chevauchement = .ok []) := by
  rcases eq_or_lt_of_le h with heq | hlt
  · left
    refine ⟨heq, ?_⟩
    unfold decouper pyRange
    rw [show taille - chevauchement = 0 by omega]
    simp
  · right
    refine ⟨hlt, ?_⟩
    unfold decouper pyRange
    have hne : ¬ (taille - chevauchement = 0) := by omega
    have hpos : ¬ ((0 : Int) < taille - chevauchement) := by omega
    have hn0 : ((((0 : Int) - (texte.length : Int)) + -(taille - chevauchement) - 1) /
        -(taille - chevauchement)).toNat = 0 := by
      have hden : (0 : Int) < -(taille - chevauchement) := by omega
      have h1 : ((0 : Int) - (texte.length : Int)) + -(taille - chevauchement) - 1 ≤
          -(taille - chevauchement) - 1 := by omega
      have h2 : (((0 : Int) - (texte.length : Int)) + -(taille - chevauchement) - 1) /
          -(taille - chevauchement) ≤ (-(taille - chevauchement) - 1) / -(taille - chevauchement) :=
        Int.ediv_le_ediv hden h1
      have h3 : (-(taille - chevauchement) - 1) / -(taille - chevauchement) = 0 :=
        Int.ediv_eq_zero_of_lt (by omega) (by omega)
      omega
    simp only [hne, if_false, hpos, hn0]
    simp

/-- `decouper` at the default configuration of `lire_et_chunker_pdfs`:
windows of 500 characters starting every 400 characters, whitespace-only
windows dropped. -/
theorem decouper500 (texte : List Char) :
    decouper texte 500 100 = .ok ((List.range ((texte.length + 399) / 400)).filterMap
      (fun k =>
        if (pyStrip ((texte.drop (400 * k)).take 500)).length > 0 then
          some ((texte.drop (400 * k)).take 500)
        else none)) := by
  have h := decouper_nat texte 500 100 (by omega)
  norm_num at h
  exact h

theorem dropWhile_replicate_space (n : Nat) :
    (List.replicate n ' ').dropWhile pyEstEspace = [] := by
  induction n with
  | zero => rfl
  | succ n ih => rw [List.replicate_succ, List.dropWhile_cons_of_pos (by decide)]; exact ih

theorem pyStrip_replicate_space (n : Nat) : pyStrip (List.replicate n ' ') = [] := by
  unfold pyStrip
  rw [dropWhile_replicate_space]
  rfl

theorem pyStrip_replicate_a (n : Nat) :
    pyStrip (List.replicate n 'a') = List.replicate n 'a' := by
  have hd : ∀ m, (List.replicate m 'a').dropWhile pyEstEspace = List.replicate m 'a' := by
    intro m
    cases m with
    | zero => rfl
    | succ m => rw [List.replicate_succ, List.dropWhile_cons_of_neg (by decide)]
  unfold pyStrip
  rw [hd, List.reverse_replicate, hd, List.reverse_replicate]

/-- C4, counterexample: a document whose extracted text is 600 blank
characters yields zero chunks, not two (both windows strip to empty and
are dropped). -/
theorem C4_contre_exemple :
    (List.replicate 600 ' ').length = 600 ∧
    decouper (List.replicate 600 ' ') 500 100 = .ok [] := by
  refine ⟨by rw [List.length_replicate], ?_⟩
  rw [decouper500]
  have hn : ((List.replicate 600 ' ' : List Char).length + 399) / 400 = 2 := by
    rw [List.length_replicate]
  rw [hn, show List.range 2 = [0, 1] from rfl]
  rw [List.filterMap_cons, List.filterMap_cons, List.filterMap_nil]
  have hA : ((List.replicate 600 ' ' : List Char).drop (400 * 0)).take 500 =
      List.replicate 500 ' ' := by
    rw [show 400 * 0 = 0 from rfl, List.drop_zero, List.take_replicate,
      (by norm_num : (min 500 600 : Nat) = 500)]
  have hB : ((List.replicate 600 ' ' : List Char).drop (400 * 1)).take 500 =
      List.replicate 200 ' ' := by
    rw [show 400 * 1 = 400 from rfl, List.drop_replicate, List.take_replicate]
    norm_num
  rw [hA, hB, pyStrip_replicate_space, pyStrip_replicate_space]
  rfl

/-- C4, amended: for a 600-character extracted text whose two windows
`[0:500]` and `[400:600]` do not strip to whitespace, chunking at
chunk_size 500 / overlap 100 produces exactly those two chunks, of
lengths 500 and 200. -/
theorem C4_deux_chunks (texte : List Char) (h600 : texte.length = 600)
    (h1 : (pyStrip (texte.take 500)).length > 0)
    (h2 : (pyStrip ((texte.drop 400).take 200)).length > 0) :
    decouper texte 500 100 = .ok [texte.take 500, (texte.drop 400).take 200] ∧
    (texte.take 500).length = 500 ∧ ((texte.drop 400).take 200).length = 200 := by
  have hlen : (texte.drop 400).length = 200 := by rw [List.length_drop]; omega
  have h200 : (texte.drop 400).take 500 = (texte.drop 400).take 200 := by
    rw [List.take_of_length_le (by omega), List.take_of_length_le (by omega)]
  refine ⟨?_, by rw [List.length_take]; omega, by rw [List.length_take, hlen]; norm_num⟩
  rw [decouper500, h600]
  rw [show (600 + 399) / 400 = 2 from rfl, show List.range 2 = [0, 1] from rfl]
  rw [List.filterMap_cons, List.filterMap_cons, List.filterMap_nil]
  have hA : (texte.drop (400 * 0)).take 500 = texte.take 500 := by
    rw [show 400 * 0 = 0 from rfl, List.drop_zero]
  have hB : (texte.drop (400 * 1)).take 500 = (texte.drop 400).take 200 := by
    rw [show 400 * 1 = 400 from rfl, h200]
  rw [hA, hB, if_pos h1, if_pos h2]

/-- C4 witness: the spec's own example, 600 identical letters. -/
theorem C4_deux_chunks_temoin :
    (List.replicate 600 'a').length = 600 ∧
    decouper (List.replicate 600 'a') 500 100 =
      .ok [(List.replicate 600 'a').take 500,
        ((List.replicate 600 'a').drop 400).take 200] :=
  ⟨by rw [List.length_replicate],
    (C4_deux_chunks _ (by rw [List.length_replicate])
      (by rw [List.take_replicate, (by norm_num : (min 500 600 : Nat) = 500),
          pyStrip_replicate_a, List.length_replicate]; norm_num)
      (by rw [List.drop_replicate, (by norm_num : (600 - 400 : Nat) = 200),
          List.take_replicate, (by norm_num : (min 200 200 : Nat) = 200),
          pyStrip_replicate_a, List.length_replicate]; norm_num)).1⟩

/-- C2 witness: the amended statement at chunk_size 500, overlap 501. -/
theorem C2_pas_de_chunk_temoin :
    ((500 : Int) ≤ 501) ∧
    (((500 : Int) = 501 ∧
        decouper ['a'] 500 501 = .error "range() arg 3 must not be zero") ∨
      ((500 : Int) < 501 ∧ decouper ['a'] 500 501 = .ok [])) :=
  ⟨by decide, C2_pas_de_chunk ['a'] 500 501 (by decide)⟩

/-- C5, counterexample: (i) a text of 401 blank characters yields zero
non-empty chunks while `ceil(401/400) = 2`, so the chunk count is not
within ±1 of `ceil(L/400)`; (ii) a text of 850 letters yields the three
chunks `[0:500]`, `[400:850]` and `[800:850]` of lengths 500, 450 and
50, so a chunk other than the final one is also shorter than 500,
refuting "only the final chunk may be shorter". -/
theorem C5_contre_exemple :
    ((List.replicate 401 ' ').length = 401 ∧
      decouper (List.replicate 401 ' ') 500 100 = .ok [] ∧
      ¬ ((401 + 399) / 400 ≤ 0 + 1)) ∧
    ((List.replicate 850 'a').length = 850 ∧
      decouper (List.replicate 850 'a') 500 100 =
        .ok [List.replicate 500 'a', List.replicate 450 'a', List.replicate 50 'a'] ∧
      (List.replicate 450 'a').length < 500) := by
  constructor
  · refine ⟨by rw [List.length_replicate], ?_, by decide⟩
    rw [decouper500]
    have hn : ((List.replicate 401 ' ' : List Char).length + 399) / 400 = 2 := by
      rw [List.length_replicate]
    rw [hn, show List.range 2 = [0, 1] from rfl]
    rw [List.filterMap_cons, List.filterMap_cons, List.filterMap_nil]
    have hA : ((List.replicate 401 ' ' : List Char).drop (400 * 0)).take 500 =
        List.replicate 401 ' ' := by
      rw [show 400 * 0 = 0 from rfl, List.drop_zero, List.take_replicate]
      norm_num
    have hB : ((List.replicate 401 ' ' : List Char).drop (400 * 1)).take 500 =
        List.replicate 1 ' ' := by
      rw [show 400 * 1 = 400 from rfl, List.drop_replicate, List.take_replicate]
      norm_num
    rw [hA, hB, pyStrip_replicate_space, pyStrip_replicate_space]
    rfl
  · refine ⟨by rw [List.length_replicate], ?_,
      by rw [List.length_replicate]; norm_num⟩
    rw [decouper500]
    have hn : ((List.replicate 850 'a' : List Char).length + 399) / 400 = 3 := by
      rw [List.length_replicate]
    rw [hn, show List.range 3 = [0, 1, 2] from rfl]
    rw [List.filterMap_cons, List.filterMap_cons, List.filterMap_cons,
      List.filterMap_nil]
    have hA : ((List.replicate 850 'a' : List Char).drop (400 * 0)).take 500 =
        List.replicate 500 'a' := by
      rw [show 400 * 0 = 0 from rfl, List.drop_zero, List.take_replicate]
      norm_num
    have hB : ((List.replicate 850 'a' : List Char).drop (400 * 1)).take 500 =
        List.replicate 450 'a' := by
      rw [show 400 * 1 = 400 from rfl, List.drop_replicate, List.take_replicate]
      norm_num
    have hC : ((List.replicate 850 'a' : List Char).drop (400 * 2)).take 500 =
        List.replicate 50 'a' := by
      rw [show 400 * 2 = 800 from rfl, List.drop_replicate, List.take_replicate]
      norm_num
    rw [hA, hB, hC, pyStrip_replicate_a, pyStrip_replicate_a, pyStrip_replicate_a]
    simp only [List.length_replicate]
    rfl

/-- C5, amended: at chunk_size 500 / overlap 100 every produced chunk
has length ≤ 500 and is not whitespace-only (in Python's `str.strip`
sense); when no 500-character window of the text strips to empty, the
chunk count is exactly `ceil(L/400)` (hence within ±1 as claimed), the
chunk at position `k` has length `min 500 (L - 400k)` — so any chunk
whose window reaches past the end of the text, not only the final one,
is shorter than 500 — and consecutive chunks overlap by exactly
`min(100, remaining length)` characters; when some window is
whitespace-only it is dropped and the count can fall short of
`ceil(L/400)` by more than 1 (see the counterexample). -/
theorem C5_forme_des_chunks (texte : List Char) :
    ∃ cs, decouper texte 500 100 = .ok cs ∧
      (∀ ch ∈ cs, ch.length ≤ 500 ∧ (pyStrip ch).length > 0) ∧
      ((∀ k, k < (texte.length + 399) / 400 →
          (pyStrip ((texte.drop (400 * k)).take 500)).length > 0) →
        cs.length = (texte.length + 399) / 400 ∧
        (∀ k, k < cs.length →
          (cs.getD k []).length = min 500 (texte.length - 400 * k)) ∧
        (∀ k, k + 1 < cs.length →
          (cs.getD k []).drop
              ((cs.getD k []).length - min 100 (texte.length - 400 * (k + 1))) =
            (cs.getD (k + 1) []).take (min 100 (texte.length - 400 * (k + 1))))) := by
  refine ⟨_, decouper500 texte, ?_, ?_⟩
  · intro ch hch
    rw [List.mem_filterMap] at hch
    obtain ⟨k, _, hsome⟩ := hch
    by_cases hcond : (pyStrip ((texte.drop (400 * k)).take 500)).length > 0
    · rw [if_pos hcond] at hsome
      obtain rfl := Option.some.inj hsome
      exact ⟨by rw [List.length_take]; omega, hcond⟩
    · rw [if_neg hcond] at hsome
      exact absurd hsome (by simp)
  · intro hnws
    have hmap : (List.range ((texte.length + 399) / 400)).filterMap
        (fun k =>
          if (pyStrip ((texte.drop (400 * k)).take 500)).length > 0 then
            some ((texte.drop (400 * k)).take 500)
          else none) =
        (List.range ((texte.length + 399) / 400)).map
          (fun k => (texte.drop (400 * k)).take 500) :=
      filterMap_if_all _ _ _ (fun k hk => hnws k (List.mem_range.mp hk))
    rw [hmap, List.length_map, List.length_range]
    refine ⟨rfl, ?_, ?_⟩
    · intro k hk
      rw [getD_range_map _ _ _ _ hk, List.length_take, List.length_drop]
    intro k hk
    rw [getD_range_map _ _ _ _ (by omega), getD_range_map _ _ _ _ (by omega)]
    have hL1 : 400 * (k + 1) < texte.length := by omega
    have hlenk : ((texte.drop (400 * k)).take 500).length =
        min 500 (texte.length - 400 * k) := by
      rw [List.length_take, List.length_drop]
    have hdd : min 500 (texte.length - 400 * k) -
        min 100 (texte.length - 400 * (k + 1)) = 400 := by omega
    rw [hlenk, hdd, List.drop_take, List.drop_drop, List.take_take]
    have harg : 400 * k + 400 = 400 * (k + 1) := by ring
    rw [harg]
    have hd500 : min (min 100 (texte.length - 400 * (k + 1))) 500 =
        min 100 (texte.length - 400 * (k + 1)) := by omega
    rw [hd500, (by norm_num : (500 - 400 : Nat) = 100)]
    rcases le_or_lt 100 (texte.length - 400 * (k + 1)) with hge | hlt
    · rw [min_eq_left hge]
    · rw [min_eq_right hlt.le]
      have hdlen : (texte.drop (400 * (k + 1))).length =
          texte.length - 400 * (k + 1) := List.length_drop _ _
      rw [List.take_of_length_le (by omega), List.take_of_length_le (by omega)]

/-- C5 witness: a five-letter text gives one chunk and the conditional
part of the statement is not vacuous. -/
theorem C5_forme_des_chunks_temoin :
    ∃ cs, decouper (List.replicate 5 'a') 500 100 = .ok cs ∧
      (∀ ch ∈ cs, ch.length ≤ 500 ∧ (pyStrip ch).length > 0) ∧
      ((∀ k, k < ((List.replicate 5 'a' : List Char).length + 399) / 400 →
          (pyStrip (((List.replicate 5 'a' : List Char).drop (400 * k)).take 500)).length > 0) →
        cs.length = ((List.replicate 5 'a' : List Char).length + 399) / 400 ∧
        (∀ k, k < cs.length →
          (cs.getD k []).length =
            min 500 ((List.replicate 5 'a' : List Char).length - 400 * k)) ∧
        (∀ k, k + 1 < cs.length →
          (cs.getD k []).drop
              ((cs.getD k []).length -
                min 100 ((List.replicate 5 'a' : List Char).length - 400 * (k + 1))) =
            (cs.getD (k + 1) []).take
              (min 100 ((List.replicate 5 'a' : List Char).length - 400 * (k + 1))))) :=
  C5_forme_des_chunks (List.replicate 5 'a')

/-- Unfolding of `lire_et_chunker_pdfs` on a non-empty directory. -/
theorem lire_cons (doc : Document) (reste : List Document) (t c : Int) :
    lire_et_chunker_pdfs (doc :: reste) t c =
      (if estPdf doc.nom then
        match doc.contenu with
        | .ok texte =>
            match decouper texte t c with
            | .ok dcs => (dcs ++ (lire_et_chunker_pdfs reste t c).1,
                dcs.map (fun _ => doc.nom) ++ (lire_et_chunker_pdfs reste t c).2)
            | .error _ => lire_et_chunker_pdfs reste t c
        | .error _ => lire_et_chunker_pdfs reste t c
      else lire_et_chunker_pdfs reste t c) := rfl

/-- C1: when the corpus directory has no PDF document or every PDF is
unreadable, `lire_et_chunker_pdfs` returns two empty sequences, and
running the rest of the pipeline (`construire_index` then
`rechercher_passages`) on the empty chunk list returns an empty passage
list; no step signals an error. -/
theorem C1_corpus_vide (dossier : List Document) (modele : List Char → List Int)
    (question : List Char) (top_k : Nat)
    (h : ∀ doc ∈ dossier, estPdf doc.nom = false ∨ ∃ e, doc.contenu = .error e) :
    lire_et_chunker_pdfs dossier 500 100 = ([], []) ∧
    rechercher_passages modele question []
      (construire_index modele []).1 top_k = [] := by
  constructor
  · induction dossier with
    | nil => rfl
    | cons doc reste ih =>
        have hd := h doc (List.mem_cons_self doc reste)
        have hreste := ih (fun d hdm => h d (List.mem_cons_of_mem doc hdm))
        rw [lire_cons]
        split_ifs with hb
        · rcases hd with hpdf | ⟨e, herr⟩
          · rw [hpdf] at hb
            simp at hb
          · rw [herr]
            exact hreste
        · exact hreste
  · simp [rechercher_passages, indexSearch, construire_index]

/-- C1 witness: a directory with one unreadable PDF and one non-PDF
file. -/
theorem C1_corpus_vide_temoin :
    (∀ doc ∈ [(⟨"a.pdf", .error "fichier corrompu"⟩ : Document),
        ⟨"b.pdf", .error "page illisible"⟩],
      estPdf doc.nom = false ∨ ∃ e, doc.contenu = .error e) ∧
    lire_et_chunker_pdfs [⟨"a.pdf", .error "fichier corrompu"⟩,
        ⟨"b.pdf", .error "page illisible"⟩] 500 100 = ([], []) ∧
    rechercher_passages (fun _ => [0]) ['q'] []
      (construire_index (fun _ => [0]) []).1 3 = [] := by
  have h : ∀ doc ∈ [(⟨"a.pdf", .error "fichier corrompu"⟩ : Document),
      ⟨"b.pdf", .error "page illisible"⟩],
      estPdf doc.nom = false ∨ ∃ e, doc.contenu = .error e := by
    intro doc hdoc
    rcases List.mem_cons.mp hdoc with h1 | hrest
    · subst h1
      exact Or.inr ⟨"fichier corrompu", rfl⟩
    · rcases List.mem_cons.mp hrest with h2 | habs
      · subst h2
        exact Or.inr ⟨"page illisible", rfl⟩
      · cases habs
  exact ⟨h, C1_corpus_vide _ (fun _ => [0]) ['q'] 3 h⟩

/-- Every element of `l.enum` is an in-range position paired with the
list element at that position. -/
theorem mem_enum_fields {α : Type} (l : List α) (d : α) (p : Nat × α)
    (hp : p ∈ l.enum) : p.1 < l.length ∧ l.getD p.1 d = p.2 := by
  obtain ⟨i, a⟩ := p
  rw [List.mk_mem_enum_iff_getElem?] at hp
  have h1 : i < l.length := by
    rcases List.getElem?_eq_some.mp hp with ⟨hlt, _⟩
    exact hlt
  refine ⟨h1, ?_⟩
  rw [List.getD_eq_getD_get?, List.get?_eq_getElem?, hp]
  rfl

/-- `getD` commutes with `map` at in-range positions. -/
theorem getD_map_of_lt {α β : Type} (f : α → β) (l : List α) (i : Nat)
    (hi : i < l.length) (da : α) (db : β) :
    (l.map f).getD i db = f (l.getD i da) := by
  rw [List.getD_eq_getD_get?, List.getD_eq_getD_get?, List.get?_map,
    List.get?_eq_get hi]
  rfl

/-- C3: retrieval returns exactly `min top_k N` passages: they are the
chunks at a duplicate-free list of in-range corpus positions, listed in
ascending order of squared L2 distance between the query embedding and
the chunk embedding. -/
theorem C3_top_k (modele : List Char → List Int) (chunks : List (List Char))
    (question : List Char) (top_k : Nat) :
    ∃ positions : List Nat,
      rechercher_passages modele question chunks
          (construire_index modele chunks).1 top_k =
        positions.map (fun i => chunks.getD i []) ∧
      positions.length = min top_k chunks.length ∧
      positions.Nodup ∧
      (∀ i ∈ positions, i < chunks.length) ∧
      positions.Pairwise (fun i j =>
        distL2 (modele question) (modele (chunks.getD i [])) ≤
        distL2 (modele question) (modele (chunks.getD j []))) := by
  set q := modele question with hq
  set vecs := chunks.map modele with hvecs
  set r := fun a b : Nat × List Int => distL2 q a.2 ≤ distL2 q b.2 with hr
  set tri := List.insertionSort r vecs.enum with htri
  have hperm : tri.Perm vecs.enum := List.perm_insertionSort r vecs.enum
  have hlen : tri.length = chunks.length := by
    rw [hperm.length_eq, List.enum_length, hvecs, List.length_map]
  refine ⟨(tri.map Prod.fst).take top_k, rfl, ?_, ?_, ?_, ?_⟩
  · rw [List.length_take, List.length_map, hlen]
  · have hfst : (tri.map Prod.fst).Perm (vecs.enum.map Prod.fst) := hperm.map Prod.fst
    have hnodup : (tri.map Prod.fst).Nodup := by
      rw [hfst.nodup_iff]
      rw [List.enum_map_fst]
      exact List.nodup_range _
    exact hnodup.sublist (List.take_sublist _ _)
  · intro i hi
    have hi2 : i ∈ tri.map Prod.fst := (List.take_sublist _ _).mem hi
    have hi3 : i ∈ vecs.enum.map Prod.fst := (hperm.map Prod.fst).mem_iff.mp hi2
    rw [List.enum_map_fst, List.mem_range, hvecs, List.length_map] at hi3
    exact hi3
  · have htot : IsTotal (Nat × List Int) r := ⟨fun a b => le_total _ _⟩
    have htrans : IsTrans (Nat × List Int) r := ⟨fun _ _ _ h1 h2 => le_trans h1 h2⟩
    have hsorted : tri.Pairwise r := List.sorted_insertionSort r vecs.enum
    have hvec_at : ∀ p ∈ tri, p.2 = modele (chunks.getD p.1 []) := by
      intro p hp
      have hp2 : p ∈ vecs.enum := hperm.mem_iff.mp hp
      obtain ⟨hlt, hgd⟩ := mem_enum_fields vecs ([] : List Int) p hp2
      have hlt2 : p.1 < chunks.length := by
        rw [hvecs, List.length_map] at hlt
        exact hlt
      rw [← hgd, hvecs]
      exact getD_map_of_lt modele chunks p.1 hlt2 [] []
    have hpair : (tri.map Prod.fst).Pairwise (fun i j =>
        distL2 q (modele (chunks.getD i [])) ≤
        distL2 q (modele (chunks.getD j []))) := by
      rw [List.pairwise_map]
      refine List.Pairwise.imp_of_mem ?_ hsorted
      intro a b ha hb hab
      rw [← hvec_at a ha, ← hvec_at b hb]
      exact hab
    exact hpair.sublist (List.take_sublist _ _)

/-- Step lemma: a PDF document that extracts and chunks successfully
prepends its chunks paired with its filename. -/
theorem lire_cons_ok (doc : Document) (reste : List Document) (t c : Int)
    (texte : List Char) (dcs : List (List Char)) (hb : estPdf doc.nom = true)
    (hcont : doc.contenu = .ok texte) (hdec : decouper texte t c = .ok dcs) :
    lire_et_chunker_pdfs (doc :: reste) t c =
      (dcs ++ (lire_et_chunker_pdfs reste t c).1,
       dcs.map (fun _ => doc.nom) ++ (lire_et_chunker_pdfs reste t c).2) := by
  simp only [lire_cons, hb, hcont, hdec, if_true]

/-- Step lemma: an unreadable PDF contributes nothing. -/
theorem lire_cons_erreur (doc : Document) (reste : List Document) (t c : Int)
    (e : String) (hb : estPdf doc.nom = true) (hcont : doc.contenu = .error e) :
    lire_et_chunker_pdfs (doc :: reste) t c = lire_et_chunker_pdfs reste t c := by
  simp only [lire_cons, hb, hcont, if_true]

/-- Step lemma: a PDF whose chunking raises contributes nothing. -/
theorem lire_cons_decoupe_erreur (doc : Document) (reste : List Document)
    (t c : Int) (texte : List Char) (e : String) (hb : estPdf doc.nom = true)
    (hcont : doc.contenu = .ok texte) (hdec : decouper texte t c = .error e) :
    lire_et_chunker_pdfs (doc :: reste) t c = lire_et_chunker_pdfs reste t c := by
  simp only [lire_cons, hb, hcont, hdec, if_true]

/-- Step lemma: a non-PDF file contributes nothing. -/
theorem lire_cons_non_pdf (doc : Document) (reste : List Document) (t c : Int)
    (hb : estPdf doc.nom = false) :
    lire_et_chunker_pdfs (doc :: reste) t c = lire_et_chunker_pdfs reste t c := by
  simp only [lire_cons, hb, Bool.false_eq_true, if_false]

/-- Zipping a list with a map of itself pairs each element with its
image. -/
theorem zip_self_map {α β : Type} (l : List α) (f : α → β) :
    l.zip (l.map f) = l.map (fun a => (a, f a)) := by
  induction l with
  | nil => rfl
  | cons a l ih => simp [ih]

/-- C10: `lire_et_chunker_pdfs` returns equally long chunk and metadata
sequences, and position by position the metadata entry is the filename
of the (readable, `.pdf`) document whose chunking produced the chunk at
that position — documents that fail extraction contribute no positions
at all. -/
theorem C10_chunks_et_origines (dossier : List Document)
    (taille chevauchement : Int) :
    (lire_et_chunker_pdfs dossier taille chevauchement).1.length =
      (lire_et_chunker_pdfs dossier taille chevauchement).2.length ∧
    ∀ p ∈ (lire_et_chunker_pdfs dossier taille chevauchement).1.zip
        (lire_et_chunker_pdfs dossier taille chevauchement).2,
      ∃ doc ∈ dossier, p.2 = doc.nom ∧ estPdf doc.nom = true ∧
        ∃ texte dcs, doc.contenu = .ok texte ∧
          decouper texte taille chevauchement = .ok dcs ∧ p.1 ∈ dcs := by
  induction dossier with
  | nil => exact ⟨rfl, fun p hp => absurd hp (List.not_mem_nil p)⟩
  | cons doc reste ih =>
      obtain ⟨ihlen, ihmem⟩ := ih
      have weaken : ∀ p ∈ (lire_et_chunker_pdfs reste taille chevauchement).1.zip
          (lire_et_chunker_pdfs reste taille chevauchement).2,
          ∃ d ∈ doc :: reste, p.2 = d.nom ∧ estPdf d.nom = true ∧
            ∃ texte dcs, d.contenu = .ok texte ∧
              decouper texte taille chevauchement = .ok dcs ∧ p.1 ∈ dcs := by
        intro p hp
        obtain ⟨d, hd, hrest⟩ := ihmem p hp
        exact ⟨d, List.mem_cons_of_mem _ hd, hrest⟩
      cases hb : estPdf doc.nom with
      | false =>
          rw [lire_cons_non_pdf doc reste _ _ hb]
          exact ⟨ihlen, weaken⟩
      | true =>
          cases hcont : doc.contenu with
          | error e =>
              rw [lire_cons_erreur doc reste _ _ e hb hcont]
              exact ⟨ihlen, weaken⟩
          | ok texte =>
              cases hdec : decouper texte taille chevauchement with
              | error e =>
                  rw [lire_cons_decoupe_erreur doc reste _ _ texte e hb hcont hdec]
                  exact ⟨ihlen, weaken⟩
              | ok dcs =>
                  rw [lire_cons_ok doc reste _ _ texte dcs hb hcont hdec]
                  constructor
                  · simp only [List.length_append, List.length_map, ihlen]
                  · intro p hp
                    rw [List.zip_append (by rw [List.length_map])] at hp
                    rcases List.mem_append.mp hp with hp1 | hp2
                    · rw [zip_self_map] at hp1
                      obtain ⟨a, ha, hpa⟩ := List.mem_map.mp hp1
                      refine ⟨doc, List.mem_cons_self doc reste, ?_, hb,
                        texte, dcs, hcont, hdec, ?_⟩
                      · rw [← hpa]
                      · rw [← hpa]
                        exact ha
                    · exact weaken p hp2

/-- A feed entry published on day `n`. -/
def entreeJour (n : Nat) : Entry :=
  ⟨"jour" ++ toString n, "date" ++ toString n, (n : Int), "resume", "lien"⟩

/-- The spec's example feed: 7 entries dated day 1 .. day 7. -/
def fluxSeptJours : List Entry :=
  [entreeJour 1, entreeJour 2, entreeJour 3, entreeJour 4, entreeJour 5,
   entreeJour 6, entreeJour 7]

/-- C8: the advisory list is a descending-by-date reordering of the feed
entries truncated to the 5 first (most recent) and mapped to advisory
records; on the 7-day example feed it is exactly days 7,6,5,4,3. -/
theorem C8_tri_et_coupe :
    (∀ entries : List Entry,
      ∃ tri : List Entry, tri.Perm entries ∧
        tri.Pairwise (fun a b => b.published_parsed ≤ a.published_parsed) ∧
        get_alertes_certfr entries = (tri.take 5).map versAlerte ∧
        (get_alertes_certfr entries).length = min 5 entries.length) ∧
    get_alertes_certfr fluxSeptJours =
      [versAlerte (entreeJour 7), versAlerte (entreeJour 6),
       versAlerte (entreeJour 5), versAlerte (entreeJour 4),
       versAlerte (entreeJour 3)] := by
  constructor
  · intro entries
    haveI h1 : IsTotal Entry (fun a b => b.published_parsed ≤ a.published_parsed) :=
      ⟨fun a b => le_total _ _⟩
    haveI h2 : IsTrans Entry (fun a b => b.published_parsed ≤ a.published_parsed) :=
      ⟨fun _ _ _ hab hbc => le_trans hbc hab⟩
    refine ⟨triParDateDesc entries, List.perm_insertionSort _ _,
      List.sorted_insertionSort _ _, rfl, ?_⟩
    simp only [get_alertes_certfr, List.length_map, List.length_take, triParDateDesc]
    rw [(List.perm_insertionSort
      (fun a b : Entry => b.published_parsed ≤ a.published_parsed) entries).length_eq]
  · rfl

/-- C9, counterexample: a generation reply whose `response` field is
present but empty is returned as the empty answer; the placeholder is
not substituted (`dict.get` only defaults on a missing key). -/
theorem C9_contre_exemple :
    answer [("response", "")] = "" ∧ "" ≠ reponseParDefaut :=
  ⟨rfl, by decide⟩

/-- C9, amended: the placeholder is substituted exactly when the
`response` field is missing from the reply; a present field — even an
empty one — is returned as-is. -/
theorem C9_reponse_manquante (reply : List (String × String))
    (h : reply.lookup "response" = none) : answer reply = reponseParDefaut := by
  simp only [answer, h]

/-- C9 witness: a reply with no `response` field. -/
theorem C9_reponse_manquante_temoin :
    (([("model", "mistral")] : List (String × String)).lookup "response" = none) ∧
    answer [("model", "mistral")] = reponseParDefaut :=
  ⟨rfl, C9_reponse_manquante _ rfl⟩

theorem hexVal_hexChiffre (n : Nat) (h : n < 16) : hexVal (hexChiffre n) = .ok n := by
  interval_cases n <;> rfl

theorem jsonEscape_cons (c : Char) (s : List Char) :
    jsonEscape (c :: s) = jsonEscapeChar c ++ jsonEscape s := by
  simp [jsonEscape]

theorem jsonEscapeChar_length_pos (c : Char) : 1 ≤ (jsonEscapeChar c).length := by
  unfold jsonEscapeChar
  split_ifs <;> simp

theorem jsonEscape_length_ge (s : List Char) : s.length ≤ (jsonEscape s).length := by
  induction s with
  | nil => simp [jsonEscape]
  | cons c s ih =>
      rw [jsonEscape_cons, List.length_append, List.length_cons]
      have := jsonEscapeChar_length_pos c
      omega

theorem Except_bind_ok {ε α β : Type} (a : α) (k : α → Except ε β) :
    (Except.ok a : Except ε α) >>= k = k a := rfl

/-- Round trip of the string body, fueled form: `json.loads` undoes
`json.dumps` escaping, leaving the input that follows the closing
quote. -/
theorem parse_escapeF (s : List Char) : ∀ (fuel : Nat) (rest : List Char),
    s.length + 1 ≤ fuel →
    parseJsonChaineF fuel (jsonEscape s ++ '"' :: rest) = .ok (s, rest) := by
  induction s with
  | nil =>
      intro fuel rest hf
      obtain ⟨f, rfl⟩ : ∃ f, fuel = f + 1 := ⟨fuel - 1, by omega⟩
      rfl
  | cons c s ih =>
      intro fuel rest hf
      obtain ⟨f, rfl⟩ : ∃ f, fuel = f + 1 := ⟨fuel - 1, by omega⟩
      have hif : s.length + 1 ≤ f := by
        rw [List.length_cons] at hf
        omega
      rw [jsonEscape_cons, List.append_assoc]
      by_cases h1 : c = '"'
      · subst h1
        rw [show jsonEscapeChar '"' = ['\\', '"'] from rfl]
        simp only [List.cons_append, List.nil_append]
        have hred : parseJsonChaineF (f + 1)
            ('\\' :: '"' :: (jsonEscape s ++ '"' :: rest)) =
            Except.bind (parseJsonChaineF f (jsonEscape s ++ '"' :: rest))
              (fun p => .ok ('"' :: p.1, p.2)) := rfl
        rw [hred, ih f rest hif]
        rfl
      · by_cases h2 : c = '\\'
        · subst h2
          rw [show jsonEscapeChar '\\' = ['\\', '\\'] from rfl]
          simp only [List.cons_append, List.nil_append]
          have hred : parseJsonChaineF (f + 1)
              ('\\' :: '\\' :: (jsonEscape s ++ '"' :: rest)) =
              Except.bind (parseJsonChaineF f (jsonEscape s ++ '"' :: rest))
                (fun p => .ok ('\\' :: p.1, p.2)) := rfl
          rw [hred, ih f rest hif]
          rfl
        · by_cases h3 : c = '\x08'
          · subst h3
            rw [show jsonEscapeChar '\x08' = ['\\', 'b'] from rfl]
            simp only [List.cons_append, List.nil_append]
            have hred : parseJsonChaineF (f + 1)
                ('\\' :: 'b' :: (jsonEscape s ++ '"' :: rest)) =
                Except.bind (parseJsonChaineF f (jsonEscape s ++ '"' :: rest))
                  (fun p => .ok ('\x08' :: p.1, p.2)) := rfl
            rw [hred, ih f rest hif]
            rfl
          · by_cases h4 : c = '\t'
            · subst h4
              rw [show jsonEscapeChar '\t' = ['\\', 't'] from rfl]
              simp only [List.cons_append, List.nil_append]
              have hred : parseJsonChaineF (f + 1)
                  ('\\' :: 't' :: (jsonEscape s ++ '"' :: rest)) =
                  Except.bind (parseJsonChaineF f (jsonEscape s ++ '"' :: rest))
                    (fun p => .ok ('\t' :: p.1, p.2)) := rfl
              rw [hred, ih f rest hif]
              rfl
            · by_cases h5 : c = '\n'
              · subst h5
                rw [show jsonEscapeChar '\n' = ['\\', 'n'] from rfl]
                simp only [List.cons_append, List.nil_append]
                have hred : parseJsonChaineF (f + 1)
                    ('\\' :: 'n' :: (jsonEscape s ++ '"' :: rest)) =
                    Except.bind (parseJsonChaineF f (jsonEscape s ++ '"' :: rest))
                      (fun p => .ok ('\n' :: p.1, p.2)) := rfl
                rw [hred, ih f rest hif]
                rfl
              · by_cases h6 : c = '\x0c'
                · subst h6
                  rw [show jsonEscapeChar '\x0c' = ['\\', 'f'] from rfl]
                  simp only [List.cons_append, List.nil_append]
                  have hred : parseJsonChaineF (f + 1)
                      ('\\' :: 'f' :: (jsonEscape s ++ '"' :: rest)) =
                      Except.bind (parseJsonChaineF f (jsonEscape s ++ '"' :: rest))
                        (fun p => .ok ('\x0c' :: p.1, p.2)) := rfl
                  rw [hred, ih f rest hif]
                  rfl
                · by_cases h7 : c = '\r'
                  · subst h7
                    rw [show jsonEscapeChar '\r' = ['\\', 'r'] from rfl]
                    simp only [List.cons_append, List.nil_append]
                    have hred : parseJsonChaineF (f + 1)
                        ('\\' :: 'r' :: (jsonEscape s ++ '"' :: rest)) =
                        Except.bind (parseJsonChaineF f (jsonEscape s ++ '"' :: rest))
                          (fun p => .ok ('\r' :: p.1, p.2)) := rfl
                    rw [hred, ih f rest hif]
                    rfl
                  · by_cases h8 : c.toNat < 32
                    · have hchar : jsonEscapeChar c = ['\\', 'u', '0', '0',
                          hexChiffre (c.toNat / 16), hexChiffre (c.toNat % 16)] := by
                        simp [jsonEscapeChar, h1, h2, h3, h4, h5, h6, h7, h8]
                      rw [hchar]
                      simp only [List.cons_append, List.nil_append]
                      have hred : parseJsonChaineF (f + 1) ('\\' :: 'u' :: '0' :: '0' ::
                          hexChiffre (c.toNat / 16) :: hexChiffre (c.toNat % 16) ::
                          (jsonEscape s ++ '"' :: rest)) =
                          Except.bind (hexVal (hexChiffre (c.toNat / 16))) (fun a =>
                            Except.bind (hexVal (hexChiffre (c.toNat % 16))) (fun b =>
                              Except.bind (parseJsonChaineF f (jsonEscape s ++ '"' :: rest))
                                (fun p =>
                                  .ok (Char.ofNat (((0 * 16 + 0) * 16 + a) * 16 + b) :: p.1,
                                    p.2)))) := rfl
                      rw [hred, hexVal_hexChiffre (c.toNat / 16) (by omega)]
                      rw [show ∀ k : Nat → Except String (List Char × List Char),
                          Except.bind (.ok (c.toNat / 16)) k = k (c.toNat / 16) from
                          fun k => rfl]
                      rw [hexVal_hexChiffre (c.toNat % 16) (by omega)]
                      rw [show ∀ k : Nat → Except String (List Char × List Char),
                          Except.bind (.ok (c.toNat % 16)) k = k (c.toNat % 16) from
                          fun k => rfl]
                      rw [ih f rest hif]
                      rw [show ((0 * 16 + 0) * 16 + c.toNat / 16) * 16 + c.toNat % 16 =
                        c.toNat from by omega, Char.ofNat_toNat]
                      rfl
                    · have hchar : jsonEscapeChar c = [c] := by
                        simp [jsonEscapeChar, h1, h2, h3, h4, h5, h6, h7, h8]
                      rw [hchar, List.singleton_append]
                      simp only [parseJsonChaineF]
                      rw [if_neg h1, if_neg h2, if_neg h8, ih f rest hif]
                      rfl

/-- Round trip of the string body. -/
theorem parse_escape (s rest : List Char) :
    parseJsonChaine (jsonEscape s ++ '"' :: rest) = .ok (s, rest) := by
  unfold parseJsonChaine
  apply parse_escapeF
  rw [List.length_append, List.length_cons]
  have := jsonEscape_length_ge s
  omega

theorem attendre_append (l s : List Char) : attendre l (l ++ s) = .ok s := by
  induction l with
  | nil => rfl
  | cons c l ih => simp [attendre, ih]

theorem attendre_fin : attendre ['\x7d'] ['\x7d'] = .ok ([] : List Char) := rfl

/-- Round trip of a full serialized exchange line. -/
theorem parse_dumps (ts q r : List Char) :
    parseLigneEchange (dumpsEchange ts q r) = .ok (q, r) := by
  unfold parseLigneEchange dumpsEchange
  simp only [attendre_append, Except_bind_ok, parse_escape, attendre_fin]
  rfl

/-- C6: for every question and answer (and timestamp), appending the
exchange with `sauvegarder_echange` and reloading the log with
`charger_historique_persistant` yields the `(question, reponse)` pair as
the last element of the returned history — the timestamp is dropped by
the loader. -/
theorem C6_aller_retour (ts question reponse : List Char)
    (fichier : List (List Char)) :
    (charger_historique_persistant
        (sauvegarder_echange ts question reponse fichier)).getLast? =
      some (question, reponse) := by
  unfold sauvegarder_echange charger_historique_persistant
  rw [List.filterMap_append]
  have hlast : ([dumpsEchange ts question reponse] : List (List Char)).filterMap
      (fun ligne => (parseLigneEchange ligne).toOption) = [(question, reponse)] := by
    rw [List.filterMap_cons, parse_dumps, List.filterMap_nil]
    rfl
  rw [hlast, List.getLast?_concat]

/-- C7: a line that does not parse as an exchange record is skipped by
the reload, and every line after it is still loaded, in file order. -/
theorem C7_ligne_malformee (avant apres : List (List Char))
    (mauvaise : List Char)
    (h : (parseLigneEchange mauvaise).toOption = none) :
    charger_historique_persistant (avant ++ mauvaise :: apres) =
      charger_historique_persistant avant ++
        charger_historique_persistant apres := by
  unfold charger_historique_persistant
  rw [List.filterMap_append, List.filterMap_cons, h]

/-- C7 witness: a garbage line between two well-formed lines is skipped
and both neighbours load. -/
theorem C7_ligne_malformee_temoin :
    (parseLigneEchange ['o', 'o', 'p', 's']).toOption = none ∧
    charger_historique_persistant
        ([dumpsEchange ['t'] ['a'] ['b']] ++ ['o', 'o', 'p', 's'] ::
          [dumpsEchange ['u'] ['c'] ['d']]) =
      charger_historique_persistant [dumpsEchange ['t'] ['a'] ['b']] ++
        charger_historique_persistant [dumpsEchange ['u'] ['c'] ['d']] :=
  ⟨rfl, C7_ligne_malformee _ _ _ rfl⟩

end RSSI
